import Mathlib

/-!
Verification of the MyFridge recipe-corpus engine: name normalization and
duplicate resolution (backend/scraper/deduplicate_recipes.py), quality and
popularity scoring (backend/scraper/real_popularity_system.py and
backend/scraper/add_popularity_scores.py), ingredient-based matching
(backend/app/services/recipe_service.py), and the ingredient normalizer
(backend/scraper/audit_ingredients.py).

Python strings are modelled as Lean String values over their character
lists (ASCII-faithful: the corpus texts involved are ASCII), Python ints
as Nat, Python floats as exact rationals, Python None-able values as
Option, and Python list-valued fields absent from a record as the empty
list (both are falsy and have length 0, so every use in the sources
agrees). Python dict iteration order (insertion order) is modelled
explicitly where it matters.
-/

/-- The six ASCII whitespace characters recognized by the Python str.split,
str.strip and regex backslash-s constructs. -/
def pyIsSpace (c : Char) : Bool :=
  c == ' ' || c == '\t' || c == '\n' || c == '\r' ||
  c == Char.ofNat 11 || c == Char.ofNat 12

/-- Python str.lower, ASCII range (Char.toLower maps exactly the letters
A-Z, matching the Python behaviour on the ASCII corpus texts). -/
def pyLower (s : String) : String :=
  ⟨s.data.map Char.toLower⟩

/-- Strip leading and trailing whitespace from a character list. -/
def pyStripList (l : List Char) : List Char :=
  ((l.dropWhile pyIsSpace).reverse.dropWhile pyIsSpace).reverse

/-- Python str.strip with no argument. -/
def pyStrip (s : String) : String :=
  ⟨pyStripList s.data⟩

/-- Helper for pySplitWs: accumulates the current word (reversed) while
scanning; whitespace runs separate words and produce no empty words. -/
def pyWordsAux : List Char → List Char → List (List Char)
  | cur, [] => if cur.isEmpty then [] else [cur.reverse]
  | cur, c :: cs =>
    if pyIsSpace c then
      if cur.isEmpty then pyWordsAux [] cs else cur.reverse :: pyWordsAux [] cs
    else
      pyWordsAux (c :: cur) cs

/-- Python str.split with no argument: split on whitespace runs, dropping
empty pieces. -/
def pySplitWs (s : String) : List String :=
  (pyWordsAux [] s.data).map String.mk

/-- Helper for collapseWs: the flag records whether the previous kept
character position was inside a whitespace run. -/
def collapseWsAux : Bool → List Char → List Char
  | _, [] => []
  | prevWs, c :: cs =>
    if pyIsSpace c then
      if prevWs then collapseWsAux true cs
      else ' ' :: collapseWsAux true cs
    else
      c :: collapseWsAux false cs

/-- The regex substitution replacing every maximal whitespace run by a
single space character. -/
def collapseWs (l : List Char) : List Char :=
  collapseWsAux false l

/-- A word character for the regex backslash-w class, ASCII range:
letters, digits and the underscore. -/
def isWordChar (c : Char) : Bool :=
  c.isAlphanum || c == '_'

/-- Python truthiness of an optional string: present and non-empty. -/
def truthyStr : Option String → Bool
  | none => false
  | some s => !s.isEmpty

/-- Python truthiness of an optional integer field: present and non-zero. -/
def truthyNat : Option Nat → Bool
  | none => false
  | some n => n != 0

/-- The recipe record, with the fields read by the deduplicator, the
scorers and the match engine.  Fields accessed through dict.get with a
None default are Option; list fields default to the empty list. -/
structure Recipe where
  id : String
  name : String
  description : Option String
  ingredients : List String
  instructions : List String
  tags : List String
  image : Option String
  image_url : Option String
  source : Option String
  total_time : Option Nat
  prep_time : Option Nat
  cook_time : Option Nat
  popularity_score : Option ℚ
deriving DecidableEq

/-- RecipeDeduplicator.SOURCE_PRIORITY (deduplicate_recipes.py lines
26-31). -/
def SOURCE_PRIORITY : List (String × Nat) :=
  [("TheMealDB", 100), ("Recipe Puppy", 80), ("Curated", 60), ("MyFridge", 40)]

/-- RecipeDeduplicator.IGNORE_WORDS (deduplicate_recipes.py lines 34-38). -/
def IGNORE_WORDS : List String :=
  ["the", "a", "an", "perfect", "classic", "easy", "simple",
   "best", "homemade", "ultimate", "authentic", "traditional",
   "quick", "delicious", "amazing", "favorite", "moms", "mom\x27s"]

/-- RecipeDeduplicator.normalize_name (deduplicate_recipes.py lines
50-66): lowercase and strip, drop ignore words, delete characters that
are neither word characters nor whitespace, collapse whitespace runs,
strip. -/
def normalize_name (name : String) : String :=
  let normalized := pyStrip (pyLower name)
  let words := (pySplitWs normalized).filter (fun w => !IGNORE_WORDS.contains w)
  let joined := String.intercalate " " words
  let nopunct : String := ⟨joined.data.filter (fun c => isWordChar c || pyIsSpace c)⟩
  pyStrip ⟨collapseWs nopunct.data⟩

/-- The canonical grouping key of a recipe: its normalized name. -/
def keyOf (r : Recipe) : String :=
  normalize_name r.name

/-- RecipeDeduplicator.get_source_score (deduplicate_recipes.py lines
68-71): the source up to the first opening parenthesis, stripped, looked
up in SOURCE_PRIORITY with default 0. -/
def get_source_score (r : Recipe) : Nat :=
  let src := pyStrip ⟨(r.source.getD "").data.takeWhile (fun c => c != '(')⟩
  (SOURCE_PRIORITY.lookup src).getD 0

/-- RecipeDeduplicator.get_quality_score (deduplicate_recipes.py lines
73-97): source priority, plus 20 for an image URL, plus the ingredient
count capped at 20, plus the step count capped at 15, plus 10 for a
description, plus the tag count capped at 10. -/
def get_quality_score (r : Recipe) : Nat :=
  get_source_score r
  + (if truthyStr r.image_url then 20 else 0)
  + min r.ingredients.length 20
  + min r.instructions.length 15
  + (if truthyStr r.description then 10 else 0)
  + min r.tags.length 10

/-- The distinct elements of a list in order of first occurrence: the key
order of a Python dict filled by insertion. -/
def firstKeys : List String → List String
  | [] => []
  | k :: ks => k :: (firstKeys ks).filter (fun a => a != k)

/-- The group a key k receives in RecipeDeduplicator.find_duplicates
(deduplicate_recipes.py lines 106-110): the sublist of the corpus, in
corpus order, whose normalized name equals k. -/
def groupFor (C : List Recipe) (k : String) : List Recipe :=
  C.filter (fun r => keyOf r == k)

/-- The first maximal-score element of best :: rest under
get_quality_score.  The Python code sorts the scored group with
list.sort(reverse=True) - a stable sort - and takes the head, which is
exactly the first element attaining the maximal score. -/
def pickBest : Recipe → List Recipe → Recipe
  | best, [] => best
  | best, r :: rs =>
    pickBest (if get_quality_score r > get_quality_score best then r else best) rs

/-- The survivor list of one group in RecipeDeduplicator.deduplicate
(deduplicate_recipes.py lines 123-150): a singleton group is kept as is,
a larger group is reduced to its first maximal-score member. -/
def dedupGroup : List Recipe → List Recipe
  | [] => []
  | [r] => [r]
  | r :: rs => [pickBest r rs]

/-- RecipeDeduplicator.find_duplicates followed by
RecipeDeduplicator.deduplicate (deduplicate_recipes.py lines 106-152):
group the corpus by normalized name (groups iterated in key
first-insertion order) and keep one survivor per group. -/
def deduplicate (C : List Recipe) : List Recipe :=
  ((firstKeys (C.map keyOf)).map (fun k => dedupGroup (groupFor C k))).flatten


/-- The ingredient-count clause of
RealPopularityScorer.calculate_quality_score (real_popularity_system.py
lines 213-216): 10 points when the count lies in the band 3..15, nothing
otherwise. -/
def ingredient_band_bonus (r : Recipe) : Nat :=
  if 3 ≤ r.ingredients.length ∧ r.ingredients.length ≤ 15 then 10 else 0

/-- RealPopularityScorer.calculate_quality_score
(real_popularity_system.py lines 188-218): six independent bonuses summed
then capped at 100. -/
def calculate_quality_score (r : Recipe) : Nat :=
  min 100
    ((if truthyStr r.description ∧ (r.description.getD "").length > 20 then 15 else 0)
     + (if r.tags ≠ [] ∧ r.tags.length > 0 then 15 else 0)
     + (if truthyStr r.image ∨ truthyStr r.image_url then 20 else 0)
     + (if r.instructions ≠ [] ∧ r.instructions.length ≥ 3 then 25 else 0)
     + (if truthyNat r.total_time ∨ (truthyNat r.prep_time ∧ truthyNat r.cook_time) then 15 else 0)
     + ingredient_band_bonus r)

/-- The ingredient-count completeness clause of
calculate_popularity_score (add_popularity_scores.py lines 58-63): 5 in
the band 3..15, 2 above the band, nothing below it. -/
def add_pop_ingredient_completeness (r : Recipe) : Nat :=
  if 3 ≤ r.ingredients.length ∧ r.ingredients.length ≤ 15 then 5
  else if r.ingredients.length > 15 then 2
  else 0

/-- The outcome of one Google Trends fetch as seen by
GoogleTrendsCollector.get_interest_score: none models both the
pytrends-unavailable path and the exception path; some carries the pair
of series averages (90-day, 5-year), an empty series averaging to 0. -/
def TrendFetch : Type := Option (ℚ × ℚ)

/-- GoogleTrendsCollector.get_interest_score (real_popularity_system.py
lines 94-127): the neutral default 50 when the provider is unavailable or
the fetch raises, otherwise the 60/40 blend of the recent and baseline
averages clamped into 0..100. -/
def get_interest_score : TrendFetch → ℚ
  | none => 50
  | some (recent_avg, baseline_avg) =>
    min 100 (max 0 (recent_avg * 0.6 + baseline_avg * 0.4))

/-- PlatformEngagementCollector.get_engagement_score
(real_popularity_system.py lines 169-177): the constant placeholder 60. -/
def get_engagement_score : ℚ := 60

/-- RealPopularityScorer.calculate_recency_boost (real_popularity_system.py
lines 220-224): the constant neutral 50. -/
def calculate_recency_boost (_ : Recipe) : ℚ := 50

/-- Round a rational to the nearest integer, ties to the even integer:
the Python round function (floats modelled as exact rationals). -/
def roundHalfEven (x : ℚ) : ℤ :=
  if x - ⌊x⌋ < 1 / 2 then ⌊x⌋
  else if 1 / 2 < x - ⌊x⌋ then ⌊x⌋ + 1
  else if ⌊x⌋ % 2 = 0 then ⌊x⌋ else ⌊x⌋ + 1

/-- Python round(x, 1). -/
def pyRound1 (x : ℚ) : ℚ :=
  (roundHalfEven (10 * x) : ℚ) / 10

/-- RealPopularityScorer.calculate_real_popularity
(real_popularity_system.py lines 226-244): the weighted sum of the trend,
engagement, quality and recency components, rounded to one decimal. -/
def calculate_real_popularity (r : Recipe) (fetch : TrendFetch) : ℚ :=
  pyRound1
    (get_interest_score fetch * 0.40
     + get_engagement_score * 0.30
     + (calculate_quality_score r : ℚ) * 0.20
     + calculate_recency_boost r * 0.10)

/-- One updated record produced by the batch pass
RealPopularityScorer.score_all_recipes: the recipe dict after the three
assignments of lines 266-268 of real_popularity_system.py. -/
structure ScoredRecipe where
  base : Recipe
  popularity_score_old : ℚ
  new_popularity_score : ℚ
  popularity_last_updated : String
deriving DecidableEq

/-- Descending order on the new popularity score, the key of the final
list.sort(reverse=True) of score_all_recipes (stable). -/
def byScoreDesc (a b : ScoredRecipe) : Prop :=
  b.new_popularity_score ≤ a.new_popularity_score

instance : DecidableRel byScoreDesc :=
  fun a b => Rat.instDecidableLe b.new_popularity_score a.new_popularity_score

instance : IsTotal ScoredRecipe byScoreDesc :=
  ⟨fun a b => le_total b.new_popularity_score a.new_popularity_score⟩

instance : IsTrans ScoredRecipe byScoreDesc :=
  ⟨fun _ _ _ h1 h2 => le_trans h2 h1⟩

/-- RealPopularityScorer.score_all_recipes (real_popularity_system.py
lines 246-287), without the file I/O: every record of the corpus is
scored (the per-recipe trend fetch outcome supplied by the ambient world
function), the prior score is retained alongside the new one, the
timestamp is recorded, and the result is stably sorted by the new score
descending.  The loop body has no per-record error handler: a trend
failure is absorbed inside get_interest_score. -/
def score_all_recipes (recipes : List Recipe) (fetch : String → TrendFetch)
    (now : String) : List ScoredRecipe :=
  (recipes.map (fun r =>
    ScoredRecipe.mk r (r.popularity_score.getD 0)
      (calculate_real_popularity r (fetch r.name)) now)).insertionSort byScoreDesc

/-- The searchable text of a recipe in
RecipeService.get_recipes_by_ingredients (recipe_service.py line 110):
the space-joined ingredient list, lowercased. -/
def recipe_ingredients_text (r : Recipe) : String :=
  pyLower (String.intercalate " " r.ingredients)

/-- Boolean list prefix test. -/
def listIsPrefix : List Char → List Char → Bool
  | [], _ => true
  | _ :: _, [] => false
  | a :: as, b :: bs => a == b && listIsPrefix as bs

/-- Boolean contiguous-sublist test: the Python substring operator on the
underlying character lists. -/
def listIsInfix (needle : List Char) : List Char → Bool
  | [] => needle.isEmpty
  | c :: cs => listIsPrefix needle (c :: cs) || listIsInfix needle cs

/-- One query ingredient matches a recipe when its lowercase form is a
contiguous substring of the searchable text (recipe_service.py line 113). -/
def ingredient_occurs (ing : String) (r : Recipe) : Bool :=
  listIsInfix (pyLower ing).data (recipe_ingredients_text r).data

/-- The match counter of the inner loop of get_recipes_by_ingredients
(recipe_service.py lines 109-114): every query ingredient occurrence is
counted, duplicates in the query included. -/
def recipe_match_count (r : Recipe) (ingredients : List String) : Nat :=
  (ingredients.filter (fun ing => ingredient_occurs ing r)).length

/-- One entry of the scored_recipes list built by
get_recipes_by_ingredients (recipe_service.py lines 116-121).  The dict
key named matches in the Python source is called num_matches here because
matches is a reserved token in Lean. -/
structure ScoredEntry where
  recipe : Recipe
  num_matches : Nat
  match_ratio : ℚ
deriving DecidableEq

/-- The scored_recipes list (recipe_service.py lines 106-121): recipes
with a positive match count, in corpus order, with the count and the
ratio count / len(query). -/
def scored_recipes (C : List Recipe) (ingredients : List String) : List ScoredEntry :=
  C.filterMap (fun r =>
    if 0 < recipe_match_count r ingredients then
      some (ScoredEntry.mk r (recipe_match_count r ingredients)
        ((recipe_match_count r ingredients : ℚ) / (ingredients.length : ℚ)))
    else none)

/-- Descending order on the match count, the key of the stable sort at
recipe_service.py line 124. -/
def byMatchesDesc (a b : ScoredEntry) : Prop :=
  b.num_matches ≤ a.num_matches

instance : DecidableRel byMatchesDesc :=
  fun a b => Nat.decLe b.num_matches a.num_matches

instance : IsTotal ScoredEntry byMatchesDesc :=
  ⟨fun a b => le_total b.num_matches a.num_matches⟩

instance : IsTrans ScoredEntry byMatchesDesc :=
  ⟨fun _ _ _ h1 h2 => le_trans h2 h1⟩

/-- RecipeService.get_recipes_by_ingredients (recipe_service.py lines
104-126): score the corpus, sort stably by match count descending, cap at
the limit, return the recipes. -/
def get_recipes_by_ingredients (C : List Recipe) (ingredients : List String)
    (limit : Nat) : List Recipe :=
  (((scored_recipes C ingredients).insertionSort byMatchesDesc).take limit).map
    ScoredEntry.recipe

/-- The unit alternatives of the leading-measurement regex of
IngredientAuditor.normalize_ingredient (audit_ingredients.py line 107),
in alternation order. -/
def UNIT_TOKENS : List String :=
  ["cup", "cups", "tablespoon", "tablespoons", "teaspoon", "teaspoons",
   "tbsp", "tsp", "oz", "g", "kg", "lb", "ml", "l"]

/-- Boolean list suffix test. -/
def listIsSuffix (suf l : List Char) : Bool :=
  listIsPrefix suf.reverse l.reverse

/-- Match one-or-more whitespace at the head and drop the whole run
(the greedy regex whitespace-plus); none when the head is not whitespace. -/
def wsPlusDrop : List Char → Option (List Char)
  | [] => none
  | c :: t => if pyIsSpace c then some (t.dropWhile pyIsSpace) else none

/-- Match the optional plural s then mandatory whitespace after a unit
token; when the s is present but not followed by whitespace the match
fails (the whitespace-plus cannot start at the letter s). -/
def unitTail : List Char → Option (List Char)
  | [] => none
  | c :: t => if c == 's' || c == 'S' then wsPlusDrop t else wsPlusDrop (c :: t)

/-- Match the leading number of the measurement regexes: one or more
digits then an optional dot-and-digits group; none when no digit leads. -/
def dropNumber (l : List Char) : Option (List Char) :=
  if l.head?.elim false Char.isDigit then
    let r1 := l.dropWhile Char.isDigit
    match r1 with
    | '.' :: c :: t => if c.isDigit then some ((c :: t).dropWhile Char.isDigit) else some r1
    | _ => some r1
  else none

/-- The first regex of normalize_ingredient (audit_ingredients.py line
107): strip a leading number, optional whitespace, a unit token
(case-insensitive, first matching alternative whose tail also matches),
an optional plural s, and the following whitespace run; the string is
unchanged when the full pattern does not match. -/
def stripMeasure (l : List Char) : List Char :=
  match dropNumber l with
  | none => l
  | some r2 =>
    let r3 := r2.dropWhile pyIsSpace
    match UNIT_TOKENS.findSome? (fun u =>
      if listIsPrefix u.data (r3.map Char.toLower)
      then unitTail (r3.drop u.data.length) else none) with
    | some rest => rest
    | none => l

/-- The second regex of normalize_ingredient (audit_ingredients.py line
108): strip a leading number followed by whitespace. -/
def stripLeadingNum (l : List Char) : List Char :=
  match dropNumber l with
  | none => l
  | some r2 =>
    match wsPlusDrop r2 with
    | some rest => rest
    | none => l

/-- The parenthetical regex of normalize_ingredient (audit_ingredients.py
line 110): repeatedly delete an opening parenthesis, the run of
characters other than a closing parenthesis after it, and the closing
parenthesis; an opening parenthesis never followed by a closing one is
kept. -/
def removeParensFuel : Nat → List Char → List Char
  | 0, l => l
  | _ + 1, [] => []
  | fuel + 1, c :: cs =>
    if c == '(' && cs.any (fun d => d == ')') then
      removeParensFuel fuel ((cs.dropWhile (fun d => d != ')')).drop 1)
    else
      c :: removeParensFuel fuel cs

/-- Entry point of the parenthetical deletion: each step consumes at
least one character, so the length of the input is enough fuel. -/
def removeParens (l : List Char) : List Char :=
  removeParensFuel l.length l

/-- The trailing-qualifier alternatives of normalize_ingredient
(audit_ingredients.py line 114), in alternation order. -/
def QUALIFIER_PHRASES : List String :=
  ["to taste", "optional", "if needed", "or more"]

/-- The trailing-qualifier regex of normalize_ingredient
(audit_ingredients.py line 114): when the string ends in a qualifier
phrase, delete the phrase, the whitespace run before it, and one
optional comma before that. -/
def stripQualifier (l : List Char) : List Char :=
  match QUALIFIER_PHRASES.find? (fun p => listIsSuffix p.data l) with
  | none => l
  | some p =>
    let r1 := l.take (l.length - p.data.length)
    let r2 := r1.reverse.dropWhile pyIsSpace
    let r3 := match r2 with
      | ',' :: rest => rest
      | rest => rest
    r3.reverse

/-- IngredientAuditor.normalize_ingredient (audit_ingredients.py lines
104-115): strip a leading measurement, strip a leading bare number,
delete parentheticals, lowercase and strip, strip a trailing qualifier,
strip again.  This is the Ingredient Normalizer component of the spec;
RecipeService.get_recipes_by_ingredients does not call it. -/
def normalize_ingredient (s : String) : String :=
  let l1 := stripMeasure s.data
  let l2 := stripLeadingNum l1
  let l3 := removeParens l2
  let s4 := pyStrip (pyLower ⟨l3⟩)
  let l5 := stripQualifier s4.data
  pyStrip ⟨l5⟩

/-- A recipe with every optional field absent and every list field empty. -/
def emptyRecipe (i n : String) : Recipe :=
  ⟨i, n, none, [], [], [], none, none, none, none, none, none, none⟩

/-- Concrete corpus members used to instantiate the theorems below. -/
def rOx : Recipe := emptyRecipe "ox-1" "Ox"

def rTheOx : Recipe := emptyRecipe "ox-2" "The Ox"

def rMarinara1 : Recipe :=
  { emptyRecipe "pm-1" "Classic Pasta Marinara" with
    source := some "Curated",
    ingredients := ["tomato", "pasta", "garlic", "basil", "olive oil"] }

def rMarinara2 : Recipe :=
  { emptyRecipe "pm-2" "Perfect Pasta Marinara" with
    source := some "TheMealDB",
    image_url := some "http://img/pm.jpg",
    ingredients := ["tomato", "pasta", "garlic", "basil", "olive oil",
                    "onion", "salt", "pepper", "sugar", "oregano"] }

def rEggsMilk : Recipe :=
  { emptyRecipe "match-a" "Recipe A" with
    ingredients := ["4 eggs", "1 cup milk", "salt"] }

def rEggsFlour : Recipe :=
  { emptyRecipe "match-b" "Recipe B" with
    ingredients := ["4 eggs", "2 cups flour"] }

def rMilkOnly : Recipe :=
  { emptyRecipe "match-c" "Recipe C" with ingredients := ["milk"] }

def rEggOnly : Recipe :=
  { emptyRecipe "match-d" "Recipe D" with ingredients := ["egg"] }

def rPlain : Recipe := emptyRecipe "plain-1" "Pasta"

def rSixteen : Recipe :=
  { emptyRecipe "band-16" "Sixteen Ingredient Stew" with
    ingredients := ["i1", "i2", "i3", "i4", "i5", "i6", "i7", "i8",
                    "i9", "i10", "i11", "i12", "i13", "i14", "i15", "i16"] }

def rTwo : Recipe :=
  { emptyRecipe "band-2" "Two Ingredient Snack" with
    ingredients := ["i1", "i2"] }

def rFive : Recipe :=
  { emptyRecipe "band-5" "Five Ingredient Salad" with
    ingredients := ["i1", "i2", "i3", "i4", "i5"] }

def rBatchA : Recipe :=
  { emptyRecipe "batch-a" "Apple Pie" with popularity_score := some 70 }

def rBatchB : Recipe :=
  { emptyRecipe "batch-b" "Beef Stew" with popularity_score := some 55 }

def rBatchC : Recipe := emptyRecipe "batch-c" "Carrot Cake"

/-- A signal world where the fetch for Beef Stew fails and every other
fetch succeeds. -/
def fetchFailB : String → TrendFetch :=
  fun n => if n == "Beef Stew" then none else some (80, 60)

/-- A signal world where the fetch for Beef Stew succeeds with averages
blending exactly to the neutral 50, and the rest is as in fetchFailB. -/
def fetchOkB : String → TrendFetch :=
  fun n => if n == "Beef Stew" then some (50, 50) else some (80, 60)

/-- A trend fetch whose blended interest score carries two decimals
(recent 50, baseline 50.125 blend to 50.05). -/
def fetchC6 : TrendFetch := some (50, 50.125)


/-! ### Lemmas about firstKeys -/

theorem firstKeys_mem {l : List String} {a : String} : a ∈ firstKeys l ↔ a ∈ l := by
  induction l with
  | nil => simp [firstKeys]
  | cons k ks ih =>
    by_cases h : a = k
    · subst h; simp [firstKeys]
    · simp [firstKeys, List.mem_filter, h, ih, bne_iff_ne]

theorem firstKeys_nodup (l : List String) : (firstKeys l).Nodup := by
  induction l with
  | nil => simp [firstKeys]
  | cons k ks ih =>
    refine List.Nodup.cons ?_ (ih.filter _)
    intro hmem
    have := (List.mem_filter.mp hmem).2
    simp at this

theorem firstKeys_eq_self {l : List String} (h : l.Nodup) : firstKeys l = l := by
  induction l with
  | nil => rfl
  | cons k ks ih =>
    simp only [firstKeys]
    rw [ih (List.nodup_cons.mp h).2]
    congr 1
    apply List.filter_eq_self.mpr
    intro a ha
    have hne : a ≠ k := fun e => (List.nodup_cons.mp h).1 (e ▸ ha)
    simpa [bne_iff_ne] using hne

/-! ### Lemmas about pickBest and the groups of the deduplicator -/

theorem pickBest_spec (rs : List Recipe) : ∀ best : Recipe,
    ∃ l₁ l₂, best :: rs = l₁ ++ pickBest best rs :: l₂ ∧
      (∀ x ∈ l₁, get_quality_score x < get_quality_score (pickBest best rs)) ∧
      (∀ x ∈ best :: rs, get_quality_score x ≤ get_quality_score (pickBest best rs)) := by
  induction rs with
  | nil =>
    intro best
    exact ⟨[], [], rfl, by simp, by simp [pickBest]⟩
  | cons a rs ih =>
    intro best
    by_cases h : get_quality_score a > get_quality_score best
    · obtain ⟨l₁, l₂, heq, hlt, hle⟩ := ih a
      have hp : pickBest best (a :: rs) = pickBest a rs := by simp [pickBest, h]
      rw [hp]
      refine ⟨best :: l₁, l₂, ?_, ?_, ?_⟩
      · rw [List.cons_append]; exact congrArg (best :: ·) heq
      · intro x hx
        rcases List.mem_cons.mp hx with rfl | hx
        · have := hle a (by simp); omega
        · exact hlt x hx
      · intro x hx
        rcases List.mem_cons.mp hx with rfl | hx
        · have := hle a (by simp); omega
        · exact hle x hx
    · obtain ⟨l₁, l₂, heq, hlt, hle⟩ := ih best
      have hab : get_quality_score a ≤ get_quality_score best := Nat.le_of_not_lt h
      have hp : pickBest best (a :: rs) = pickBest best rs := by simp [pickBest, h]
      rw [hp]
      cases l₁ with
      | nil =>
        simp only [List.nil_append] at heq
        injection heq with hbp hl₂
        refine ⟨[], a :: rs, ?_, by simp, ?_⟩
        · simp only [List.nil_append]
          rw [← hbp]
        · intro x hx
          rcases List.mem_cons.mp hx with rfl | hx
          · exact hle x (by simp)
          · rcases List.mem_cons.mp hx with rfl | hx
            · have hb := hle best (by simp)
              omega
            · exact hle x (List.mem_cons_of_mem _ hx)
      | cons c t =>
        rw [List.cons_append] at heq
        injection heq with hbc hrs
        refine ⟨best :: a :: t, l₂, ?_, ?_, ?_⟩
        · rw [List.cons_append, List.cons_append, ← hrs]
        · intro x hx
          rcases List.mem_cons.mp hx with rfl | hx
          · have hc := hlt c (by simp)
            rw [← hbc] at hc
            exact hc
          · rcases List.mem_cons.mp hx with rfl | hx
            · have hc := hlt c (by simp)
              rw [← hbc] at hc
              omega
            · exact hlt x (List.mem_cons_of_mem _ hx)
        · intro x hx
          rcases List.mem_cons.mp hx with rfl | hx
          · exact hle x (by simp)
          · rcases List.mem_cons.mp hx with rfl | hx
            · have hb := hle best (by simp)
              omega
            · exact hle x (List.mem_cons_of_mem _ hx)

theorem pickBest_mem (best : Recipe) (rs : List Recipe) :
    pickBest best rs ∈ best :: rs := by
  obtain ⟨l₁, l₂, heq, -, -⟩ := pickBest_spec rs best
  rw [heq]
  exact List.mem_append.mpr (Or.inr (by simp))

theorem mem_groupFor {C : List Recipe} {k : String} {r : Recipe} :
    r ∈ groupFor C k ↔ r ∈ C ∧ keyOf r = k := by
  simp [groupFor, List.mem_filter]

theorem dedupGroup_pair (r : Recipe) (rs : List Recipe) :
    dedupGroup (r :: rs) = [pickBest r rs] := by
  cases rs with
  | nil => rfl
  | cons a t => rfl

theorem dedupGroup_groupFor_eq {C : List Recipe} {k : String}
    (h : k ∈ C.map keyOf) :
    ∃ s : Recipe, dedupGroup (groupFor C k) = [s] ∧ s ∈ C ∧ keyOf s = k := by
  obtain ⟨r, hrC, hrk⟩ := List.mem_map.mp h
  cases hgf : groupFor C k with
  | nil =>
    have : r ∈ groupFor C k := mem_groupFor.mpr ⟨hrC, hrk⟩
    rw [hgf] at this
    simp at this
  | cons g0 gs =>
    have hmem := pickBest_mem g0 gs
    rw [← hgf] at hmem
    exact ⟨pickBest g0 gs, by rw [dedupGroup_pair],
      (mem_groupFor.mp hmem).1, (mem_groupFor.mp hmem).2⟩

theorem flatten_map_keys (C : List Recipe) :
    ∀ ks : List String, (∀ k ∈ ks, k ∈ C.map keyOf) →
      ((ks.map (fun k => dedupGroup (groupFor C k))).flatten).map keyOf = ks := by
  intro ks
  induction ks with
  | nil => intro _; rfl
  | cons k ks ih =>
    intro h
    obtain ⟨s, hs, -, hsk⟩ := dedupGroup_groupFor_eq (h k (by simp))
    simp only [List.map_cons, List.flatten_cons, List.map_append, hs]
    rw [ih (fun a ha => h a (List.mem_cons_of_mem _ ha))]
    simp [hsk]

theorem deduplicate_map_keyOf (C : List Recipe) :
    (deduplicate C).map keyOf = firstKeys (C.map keyOf) := by
  unfold deduplicate
  exact flatten_map_keys C _ (fun k hk => firstKeys_mem.mp hk)

theorem mem_deduplicate_sub {C : List Recipe} {x : Recipe}
    (h : x ∈ deduplicate C) : x ∈ C := by
  unfold deduplicate at h
  obtain ⟨l, hl, hx⟩ := List.mem_flatten.mp h
  obtain ⟨k, -, rfl⟩ := List.mem_map.mp hl
  cases hg : groupFor C k with
  | nil => rw [hg] at hx; simp [dedupGroup] at hx
  | cons g0 gs =>
    rw [hg, dedupGroup_pair] at hx
    simp only [List.mem_singleton] at hx
    subst hx
    have hmem := pickBest_mem g0 gs
    rw [← hg] at hmem
    exact (mem_groupFor.mp hmem).1

theorem groupFor_self_of_nodup {L : List Recipe} (h : (L.map keyOf).Nodup) :
    ∀ x ∈ L, groupFor L (keyOf x) = [x] := by
  induction L with
  | nil => simp
  | cons a t ih =>
    intro x hx
    simp only [List.map_cons, List.nodup_cons] at h
    obtain ⟨hka, hnd⟩ := h
    rcases List.mem_cons.mp hx with rfl | hxt
    · simp only [groupFor, List.filter_cons, beq_self_eq_true, if_pos]
      have : t.filter (fun r => keyOf r == keyOf x) = [] := by
        apply List.filter_eq_nil_iff.mpr
        intro b hb
        simp only [beq_iff_eq]
        exact fun e => hka (e ▸ List.mem_map_of_mem keyOf hb)
      rw [this]
    · have hne : (keyOf a == keyOf x) = false := by
        simp only [beq_eq_false_iff_ne, ne_eq]
        exact fun e => hka (e ▸ List.mem_map_of_mem keyOf hxt)
      simp only [groupFor, List.filter_cons, hne, if_false]
      exact ih hnd x hxt

theorem flatten_map_singles (L : List Recipe) (g : String → List Recipe)
    (hg : ∀ x ∈ L, g (keyOf x) = [x]) :
    ((L.map keyOf).map g).flatten = L := by
  induction L with
  | nil => rfl
  | cons a t ih =>
    simp only [List.map_cons, List.flatten_cons]
    rw [hg a (by simp), ih (fun x hx => hg x (List.mem_cons_of_mem _ hx))]
    rfl

theorem deduplicate_of_nodup_keys {L : List Recipe} (h : (L.map keyOf).Nodup) :
    deduplicate L = L := by
  unfold deduplicate
  rw [firstKeys_eq_self h]
  exact flatten_map_singles L _ (fun x hx => by
    rw [groupFor_self_of_nodup h x hx]; rfl)

/-- Claim C1: the Duplicate Resolver is idempotent: running deduplicate
on its own output is a no-op, because in the output every
normalized-name group has exactly one member. -/
theorem dedup_idempotent (C : List Recipe) :
    deduplicate (deduplicate C) = deduplicate C :=
  deduplicate_of_nodup_keys
    (by rw [deduplicate_map_keyOf]; exact firstKeys_nodup _)

/-- Claim C10: the output of the Duplicate Resolver has exactly one
recipe per distinct normalized-name key of the input (its key list is
the input key list deduplicated in first-occurrence order, hence its
length is the number of distinct keys), and every output recipe is one
of the input recipes, unmodified (the resolver is a pure function of an
immutable corpus snapshot: records are values, never mutated). -/
theorem dedup_output_shape (C : List Recipe) :
    (deduplicate C).map keyOf = firstKeys (C.map keyOf) ∧
    (deduplicate C).length = (firstKeys (C.map keyOf)).length ∧
    ∀ r ∈ deduplicate C, r ∈ C :=
  ⟨deduplicate_map_keyOf C,
   by rw [← deduplicate_map_keyOf C, List.length_map],
   fun _ hr => mem_deduplicate_sub hr⟩

/-- Witness for C10 at a concrete two-recipe corpus with distinct keys. -/
theorem dedup_output_shape_witness : rFive ∈ [rPlain, rFive] :=
  (dedup_output_shape [rPlain, rFive]).2.2 rFive (by decide)

/-- Claim C2: in every duplicate group (the corpus members sharing a
canonical key, in corpus order) the survivor kept by the resolver is a
member of the group of maximal resolution score (get_quality_score:
source priority with unknown provenance scoring 0, image bonus, capped
ingredient count, capped step count, description bonus, capped tag
count), and among the maximal-scoring members it is the one appearing
first in the original corpus order; that survivor is the one element the
resolver keeps for the group and it appears in the deduplicated output. -/
theorem dedup_survivor_max_first (C : List Recipe) (k : String)
    (r : Recipe) (rs : List Recipe) (h : groupFor C k = r :: rs) :
    pickBest r rs ∈ groupFor C k ∧
    (∀ x ∈ groupFor C k, get_quality_score x ≤ get_quality_score (pickBest r rs)) ∧
    (∃ l₁ l₂, groupFor C k = l₁ ++ pickBest r rs :: l₂ ∧
      ∀ x ∈ l₁, get_quality_score x < get_quality_score (pickBest r rs)) ∧
    dedupGroup (groupFor C k) = [pickBest r rs] ∧
    pickBest r rs ∈ deduplicate C := by
  obtain ⟨l₁, l₂, heq, hlt, hle⟩ := pickBest_spec rs r
  have hmemg : pickBest r rs ∈ groupFor C k := by
    rw [h]; exact pickBest_mem r rs
  have hrg : r ∈ groupFor C k := by rw [h]; simp
  have hkmem : k ∈ C.map keyOf := by
    obtain ⟨hrC, hrk⟩ := mem_groupFor.mp hrg
    exact hrk ▸ List.mem_map_of_mem keyOf hrC
  refine ⟨hmemg, ?_, ⟨l₁, l₂, by rw [h, heq], hlt⟩, by rw [h, dedupGroup_pair], ?_⟩
  · intro x hx
    rw [h] at hx
    exact hle x hx
  · unfold deduplicate
    refine List.mem_flatten.mpr ⟨[pickBest r rs], ?_, by simp⟩
    refine List.mem_map.mpr ⟨k, firstKeys_mem.mpr hkmem, ?_⟩
    rw [h, dedupGroup_pair]

/-- Witness for C2: the two Pasta Marinara records of the spec example
share the key "pasta marinara"; the TheMealDB one (score 130) beats the
Curated one (score 65) and survives deduplication. -/
theorem dedup_survivor_max_first_witness :
    pickBest rMarinara1 [rMarinara2] = rMarinara2 ∧
    rMarinara2 ∈ deduplicate [rMarinara1, rMarinara2] := by
  have h := dedup_survivor_max_first [rMarinara1, rMarinara2]
    "pasta marinara" rMarinara1 [rMarinara2] (by decide)
  have hpb : pickBest rMarinara1 [rMarinara2] = rMarinara2 := by decide
  exact ⟨hpb, hpb ▸ h.2.2.2.2⟩

/-- Counterexample for C3: the code has no sentinel for short normalized
keys.  The names Ox and The Ox both normalize to the key "ox" of length
2 < 3, the two recipes land in the same duplicate group, and the
resolver merges them into one survivor - contradicting the claim that
such recipes are never grouped together. -/
theorem short_key_merge_cex :
    normalize_name "Ox" = "ox" ∧ normalize_name "The Ox" = "ox" ∧
    (normalize_name "The Ox").length < 3 ∧
    groupFor [rOx, rTheOx] "ox" = [rOx, rTheOx] ∧
    deduplicate [rOx, rTheOx] = [rOx] := by decide

/-- Claim C3 as amended: normalize_name returns the normalized key
unconditionally - there is no length guard and no per-input sentinel -
so any two recipes whose names normalize to the same key, however short,
are placed in one duplicate group and merged to a single survivor. -/
theorem equal_keys_always_merge (r1 r2 : Recipe) (h : keyOf r1 = keyOf r2) :
    deduplicate [r1, r2] = [pickBest r1 [r2]] := by
  unfold deduplicate
  have hmap : [r1, r2].map keyOf = [keyOf r1, keyOf r1] := by
    simp [h]
  have hfk : firstKeys [keyOf r1, keyOf r1] = [keyOf r1] := by
    simp [firstKeys]
  have hg : groupFor [r1, r2] (keyOf r1) = [r1, r2] := by
    simp [groupFor, List.filter, h]
  rw [hmap, hfk]
  simp only [List.map_cons, List.map_nil, hg]
  rw [dedupGroup_pair]
  rfl

/-- Witness for amended C3 at the short-key pair Ox / The Ox. -/
theorem equal_keys_always_merge_witness :
    deduplicate [rOx, rTheOx] = [pickBest rOx [rTheOx]] :=
  equal_keys_always_merge rOx rTheOx (by decide)

/-! ### Lemmas about rounding and score ranges -/

theorem roundHalfEven_bounds {x : ℚ} {a b : ℤ} (ha : (a : ℚ) ≤ x)
    (hb : x ≤ (b : ℚ)) : a ≤ roundHalfEven x ∧ roundHalfEven x ≤ b := by
  have hfa : a ≤ ⌊x⌋ := Int.le_floor.mpr ha
  have hfb : ⌊x⌋ ≤ b := by
    have h1 := Int.floor_le_floor hb
    rwa [Int.floor_intCast] at h1
  have hfl : (⌊x⌋ : ℚ) ≤ x := Int.floor_le x
  unfold roundHalfEven
  split_ifs with h1 h2 h3
  · exact ⟨hfa, hfb⟩
  all_goals {
    refine ⟨by omega, ?_⟩
    have hhalf : (1 : ℚ) / 2 ≤ x - ⌊x⌋ := le_of_not_lt h1
    have : ⌊x⌋ + 1 ≤ b := by
      by_contra hc
      have hble : b ≤ ⌊x⌋ := by omega
      have hbq : (b : ℚ) ≤ (⌊x⌋ : ℚ) := by exact_mod_cast hble
      linarith
    omega }

theorem roundHalfEven_intCast (n : ℤ) : roundHalfEven (n : ℚ) = n := by
  unfold roundHalfEven
  rw [Int.floor_intCast, sub_self]
  norm_num

theorem pyRound1_bounds {x : ℚ} (h0 : 0 ≤ x) (h100 : x ≤ 100) :
    0 ≤ pyRound1 x ∧ pyRound1 x ≤ 100 := by
  have hb := roundHalfEven_bounds (x := 10 * x) (a := 0) (b := 1000)
    (by push_cast; linarith) (by push_cast; linarith)
  unfold pyRound1
  constructor
  · apply div_nonneg _ (by norm_num)
    exact_mod_cast hb.1
  · rw [div_le_iff₀ (by norm_num : (0 : ℚ) < 10)]
    have h1 : (roundHalfEven (10 * x) : ℚ) ≤ 1000 := by exact_mod_cast hb.2
    linarith

theorem quality_le_100 (r : Recipe) : calculate_quality_score r ≤ 100 := by
  unfold calculate_quality_score
  exact Nat.min_le_left _ _

theorem interest_bounds (f : TrendFetch) :
    0 ≤ get_interest_score f ∧ get_interest_score f ≤ 100 := by
  cases f with
  | none => exact ⟨by norm_num [get_interest_score], by norm_num [get_interest_score]⟩
  | some p =>
    obtain ⟨ra, ba⟩ := p
    unfold get_interest_score
    exact ⟨le_min (by norm_num) (le_max_left 0 _), min_le_left _ _⟩

/-- Claim C5: the quality score and the popularity score lie in the
range 0..100 for every recipe and every trend-fetch outcome (the
engagement and recency signals are the constants 60 and 50 of the code). -/
theorem score_ranges (r : Recipe) (fetch : TrendFetch) :
    0 ≤ calculate_quality_score r ∧ calculate_quality_score r ≤ 100 ∧
    0 ≤ calculate_real_popularity r fetch ∧
    calculate_real_popularity r fetch ≤ 100 := by
  have hq100 := quality_le_100 r
  have hqQ : (0 : ℚ) ≤ (calculate_quality_score r : ℚ) := by positivity
  have hqQ100 : (calculate_quality_score r : ℚ) ≤ 100 := by exact_mod_cast hq100
  have ht := interest_bounds fetch
  have hs0 : 0 ≤ get_interest_score fetch * 0.40 + get_engagement_score * 0.30
      + (calculate_quality_score r : ℚ) * 0.20 + calculate_recency_boost r * 0.10 := by
    unfold get_engagement_score calculate_recency_boost
    nlinarith [ht.1, hqQ]
  have hs100 : get_interest_score fetch * 0.40 + get_engagement_score * 0.30
      + (calculate_quality_score r : ℚ) * 0.20 + calculate_recency_boost r * 0.10 ≤ 100 := by
    unfold get_engagement_score calculate_recency_boost
    nlinarith [ht.2, hqQ100]
  have hp := pyRound1_bounds hs0 hs100
  exact ⟨Nat.zero_le _, hq100, hp.1, hp.2⟩

/-- Counterexample for C6: the popularity score is the rounded weighted
sum, not the weighted sum itself.  With trend averages (50, 50.125) the
trend signal is 50.05, the weighted sum for an otherwise empty recipe is
43.02, and the returned score is 43.0. -/
theorem popularity_rounding_cex :
    calculate_real_popularity rPlain fetchC6 = 43 ∧
    get_interest_score fetchC6 * 0.40 + get_engagement_score * 0.30
      + (calculate_quality_score rPlain : ℚ) * 0.20
      + calculate_recency_boost rPlain * 0.10 = 43.02 ∧
    (43 : ℚ) ≠ 43.02 := by
  have hq : calculate_quality_score rPlain = 0 := by decide
  have hi : get_interest_score fetchC6 = 50.05 := by
    show get_interest_score (some (50, 50.125)) = 50.05
    simp only [get_interest_score]
    norm_num
  have hsum : get_interest_score fetchC6 * 0.40 + get_engagement_score * 0.30
      + (calculate_quality_score rPlain : ℚ) * 0.20
      + calculate_recency_boost rPlain * 0.10 = 43.02 := by
    rw [hi, hq]
    unfold get_engagement_score calculate_recency_boost
    norm_num
  refine ⟨?_, hsum, by norm_num⟩
  unfold calculate_real_popularity
  rw [hsum]
  unfold pyRound1 roundHalfEven
  norm_num

/-- Claim C6 as amended: the popularity score equals the weighted sum
0.40 * trend + 0.30 * engagement + 0.20 * quality + 0.10 * recency
rounded to one decimal place (the Python round), and, being a pure
function, it is deterministic: the same recipe and the same fetch
outcome always give the identical score. -/
theorem popularity_weighted_formula (r : Recipe) (fetch : TrendFetch) :
    calculate_real_popularity r fetch =
      pyRound1 (0.40 * get_interest_score fetch + 0.30 * get_engagement_score
        + 0.20 * (calculate_quality_score r : ℚ)
        + 0.10 * calculate_recency_boost r) ∧
    (0.40 : ℚ) + 0.30 + 0.20 + 0.10 = 1 := by
  constructor
  · unfold calculate_real_popularity
    congr 1
    ring
  · norm_num

/-- Claim C7: when the trend fetch fails, times out or the provider is
unavailable (the none outcome), the scorer substitutes the neutral
default 50 for the signal and still produces a score: concretely
43 + quality / 5. -/
theorem signal_failure_neutral_default (r : Recipe) :
    get_interest_score none = 50 ∧
    calculate_real_popularity r none = 43 + (calculate_quality_score r : ℚ) / 5 := by
  refine ⟨rfl, ?_⟩
  unfold calculate_real_popularity pyRound1 get_interest_score
    get_engagement_score calculate_recency_boost
  have h : (10 : ℚ) * ((50 : ℚ) * 0.40 + 60 * 0.30
      + (calculate_quality_score r : ℚ) * 0.20 + 50 * 0.10)
      = ((430 + 2 * (calculate_quality_score r : ℤ) : ℤ) : ℚ) := by
    push_cast
    ring
  rw [h, roundHalfEven_intCast]
  push_cast
  ring

/-- Counterexample for C9: a recipe whose ingredient count (16) lies
outside the ideal band 3..15 receives no ingredient-count bonus at all in
the Quality Scorer - its whole quality score is 0 - rather than the
tapered non-zero partial credit the claim describes. -/
theorem quality_band_cex :
    rSixteen.ingredients.length = 16 ∧
    ingredient_band_bonus rSixteen = 0 ∧
    calculate_quality_score rSixteen = 0 := by decide

/-- Claim C9 as amended: an ingredient count inside the band 3..15 earns
the full bonus (10) in the Quality Scorer, and a count outside the band
earns 0, not partial credit; only the separate completeness clause of the
add_popularity_scores batch tool tapers, and only above the band (2 for
counts over 15, still 0 below 3). -/
theorem ingredient_band_no_taper (r : Recipe) :
    (3 ≤ r.ingredients.length ∧ r.ingredients.length ≤ 15 →
      ingredient_band_bonus r = 10) ∧
    (r.ingredients.length < 3 ∨ 15 < r.ingredients.length →
      ingredient_band_bonus r = 0) ∧
    (15 < r.ingredients.length → add_pop_ingredient_completeness r = 2) ∧
    (r.ingredients.length < 3 → add_pop_ingredient_completeness r = 0) := by
  unfold ingredient_band_bonus add_pop_ingredient_completeness
  refine ⟨fun h => ?_, fun h => ?_, fun h => ?_, fun h => ?_⟩ <;>
    split_ifs <;> first | rfl | omega

/-- Witness for amended C9 at five, sixteen and two ingredients. -/
theorem ingredient_band_no_taper_witness :
    ingredient_band_bonus rFive = 10 ∧
    ingredient_band_bonus rSixteen = 0 ∧
    add_pop_ingredient_completeness rSixteen = 2 ∧
    add_pop_ingredient_completeness rTwo = 0 :=
  ⟨(ingredient_band_no_taper rFive).1 (by decide),
   (ingredient_band_no_taper rSixteen).2.1 (Or.inr (by decide)),
   (ingredient_band_no_taper rSixteen).2.2.1 (by decide),
   (ingredient_band_no_taper rTwo).2.2.2 (by decide)⟩

/-! ### The batch pass -/

theorem popularity_neutral_trend (r : Recipe) :
    calculate_real_popularity r none = 43 + (calculate_quality_score r : ℚ) / 5 := by
  unfold calculate_real_popularity pyRound1 get_interest_score
    get_engagement_score calculate_recency_boost
  have h : (10 : ℚ) * ((50 : ℚ) * 0.40 + 60 * 0.30
      + (calculate_quality_score r : ℚ) * 0.20 + 50 * 0.10)
      = ((430 + 2 * (calculate_quality_score r : ℤ) : ℤ) : ℚ) := by
    push_cast
    ring
  rw [h, roundHalfEven_intCast]
  push_cast
  ring

/-- Counterexample for C8: the batch loop of score_all_recipes has no
per-record error capture.  On a three-recipe corpus whose middle record
has a failing trend fetch, the batch output is identical to the output
of a world where that fetch succeeds with neutral averages: the failed
record receives an ordinary score (43) indistinguishable from a success,
and no error entry of any kind exists in the output. -/
theorem batch_no_error_entry_cex :
    fetchFailB rBatchB.name = none ∧
    score_all_recipes [rBatchA, rBatchB, rBatchC] fetchFailB "t0"
      = score_all_recipes [rBatchA, rBatchB, rBatchC] fetchOkB "t0" ∧
    (score_all_recipes [rBatchA, rBatchB, rBatchC] fetchFailB "t0").length = 3 ∧
    ∃ e ∈ score_all_recipes [rBatchA, rBatchB, rBatchC] fetchFailB "t0",
      ScoredRecipe.base e = rBatchB ∧ ScoredRecipe.new_popularity_score e = 43 := by
  have hqB : calculate_quality_score rBatchB = 0 := by decide
  have hB43 : calculate_real_popularity rBatchB none = 43 := by
    rw [popularity_neutral_trend rBatchB, hqB]
    norm_num
  have hOk50 : get_interest_score (some ((50 : ℚ), (50 : ℚ))) = 50 := by
    simp only [get_interest_score]
    norm_num
  have hBfetch : fetchFailB rBatchB.name = none := rfl
  have hBfetchOk : fetchOkB rBatchB.name = some (50, 50) := rfl
  have hBeq : calculate_real_popularity rBatchB (fetchFailB rBatchB.name)
      = calculate_real_popularity rBatchB (fetchOkB rBatchB.name) := by
    rw [hBfetch, hBfetchOk]
    unfold calculate_real_popularity
    rw [show get_interest_score none = 50 from rfl, hOk50]
  refine ⟨rfl, ?_, ?_, ?_⟩
  · unfold score_all_recipes
    congr 1
    simp only [List.map_cons, List.map_nil]
    rw [hBeq]
    rfl
  · unfold score_all_recipes
    rw [List.length_insertionSort]
    rfl
  · refine ⟨ScoredRecipe.mk rBatchB (rBatchB.popularity_score.getD 0)
      (calculate_real_popularity rBatchB (fetchFailB rBatchB.name)) "t0", ?_, rfl, ?_⟩
    · unfold score_all_recipes
      rw [List.mem_insertionSort]
      exact List.mem_map_of_mem _ (by simp)
    · show calculate_real_popularity rBatchB (fetchFailB rBatchB.name) = 43
      rw [hBfetch]
      exact hB43

/-- Claim C8 as amended: the batch pass processes every corpus record
independently and never aborts: the output has one scored record per
input record, and every input recipe receives a numeric popularity score
computed from its own fetch outcome (a failing fetch resolves to the
neutral default inside the per-record scoring), with the prior score
retained alongside for comparison; no per-record error entry is
produced. -/
theorem batch_scores_every_record (recipes : List Recipe)
    (fetch : String → TrendFetch) (now : String) :
    (score_all_recipes recipes fetch now).length = recipes.length ∧
    ∀ r ∈ recipes, ∃ e ∈ score_all_recipes recipes fetch now,
      ScoredRecipe.base e = r ∧
      ScoredRecipe.new_popularity_score e = calculate_real_popularity r (fetch r.name) ∧
      ScoredRecipe.popularity_score_old e = r.popularity_score.getD 0 ∧
      ScoredRecipe.popularity_last_updated e = now := by
  constructor
  · unfold score_all_recipes
    rw [List.length_insertionSort, List.length_map]
  · intro r hr
    refine ⟨ScoredRecipe.mk r (r.popularity_score.getD 0)
      (calculate_real_popularity r (fetch r.name)) now, ?_, rfl, rfl, rfl, rfl⟩
    unfold score_all_recipes
    rw [List.mem_insertionSort]
    exact List.mem_map_of_mem _ hr

/-- Witness for amended C8 at a one-recipe corpus. -/
theorem batch_scores_every_record_witness :
    ∃ e ∈ score_all_recipes [rBatchA] fetchOkB "t1",
      ScoredRecipe.base e = rBatchA ∧
      ScoredRecipe.new_popularity_score e
        = calculate_real_popularity rBatchA (fetchOkB rBatchA.name) ∧
      ScoredRecipe.popularity_score_old e = rBatchA.popularity_score.getD 0 ∧
      ScoredRecipe.popularity_last_updated e = "t1" :=
  (batch_scores_every_record [rBatchA] fetchOkB "t1").2 rBatchA (by simp)

/-! ### The match and rank engine -/

theorem mem_scored_recipes {C : List Recipe} {q : List String} {e : ScoredEntry} :
    e ∈ scored_recipes C q ↔ ∃ r ∈ C, 0 < recipe_match_count r q ∧
      e = ScoredEntry.mk r (recipe_match_count r q)
        ((recipe_match_count r q : ℚ) / (q.length : ℚ)) := by
  simp only [scored_recipes, List.mem_filterMap]
  constructor
  · rintro ⟨r, hr, hf⟩
    by_cases h : 0 < recipe_match_count r q
    · rw [if_pos h] at hf
      exact ⟨r, hr, h, (Option.some.inj hf).symm⟩
    · rw [if_neg h] at hf
      exact absurd hf (by simp)
  · rintro ⟨r, hr, h, rfl⟩
    exact ⟨r, hr, by rw [if_pos h]⟩

/-- Claim C4 as amended: in get_recipes_by_ingredients every returned
recipe is a corpus member with a positive match count; the match count
counts the query ingredients occurring (with multiplicity, each merely
lowercased - the Ingredient Normalizer is not applied) as substrings of
the lowercased joined ingredient text; the result is ordered by match
count descending (stable) and capped at the limit; every scored entry
carries match_ratio = match_count / max(1, len(query)); and an empty
query or empty corpus yields the empty result rather than an error. -/
theorem match_rank_amended (C : List Recipe) (q : List String) (limit : Nat) :
    (∀ r ∈ get_recipes_by_ingredients C q limit,
      r ∈ C ∧ 0 < recipe_match_count r q) ∧
    ((get_recipes_by_ingredients C q limit).map
      (fun r => recipe_match_count r q)).Sorted (fun a b => b ≤ a) ∧
    (get_recipes_by_ingredients C q limit).length ≤ limit ∧
    (∀ e ∈ scored_recipes C q,
      ScoredEntry.num_matches e = recipe_match_count (ScoredEntry.recipe e) q ∧
      0 < ScoredEntry.num_matches e ∧
      ScoredEntry.match_ratio e
        = (ScoredEntry.num_matches e : ℚ) / ((max 1 q.length : Nat) : ℚ)) ∧
    get_recipes_by_ingredients C [] limit = [] ∧
    get_recipes_by_ingredients [] q limit = [] := by
  have hsorted := List.sorted_insertionSort byMatchesDesc (scored_recipes C q)
  refine ⟨?_, ?_, ?_, ?_, ?_, ?_⟩
  · intro r hr
    unfold get_recipes_by_ingredients at hr
    obtain ⟨e, he, rfl⟩ := List.mem_map.mp hr
    have he2 : e ∈ scored_recipes C q :=
      (List.mem_insertionSort byMatchesDesc).mp (List.take_subset _ _ he)
    obtain ⟨r', hr', hpos, rfl⟩ := mem_scored_recipes.mp he2
    exact ⟨hr', hpos⟩
  · unfold get_recipes_by_ingredients
    rw [List.map_map]
    have h1 : List.Pairwise byMatchesDesc
        (((scored_recipes C q).insertionSort byMatchesDesc).take limit) :=
      List.Pairwise.sublist (List.take_sublist _ _) hsorted
    have h2 : ∀ e ∈ ((scored_recipes C q).insertionSort byMatchesDesc).take limit,
        ScoredEntry.num_matches e = recipe_match_count (ScoredEntry.recipe e) q := by
      intro e he
      obtain ⟨r', -, -, rfl⟩ := mem_scored_recipes.mp
        ((List.mem_insertionSort byMatchesDesc).mp (List.take_subset _ _ he))
      rfl
    apply List.pairwise_map.mpr
    exact h1.imp_of_mem (fun ha hb hr => by
      show recipe_match_count (ScoredEntry.recipe _) q
        ≤ recipe_match_count (ScoredEntry.recipe _) q
      rw [← h2 _ ha, ← h2 _ hb]
      exact hr)
  · unfold get_recipes_by_ingredients
    rw [List.length_map]
    exact List.length_take_le _ _
  · intro e he
    obtain ⟨r', hr', hpos, rfl⟩ := mem_scored_recipes.mp he
    refine ⟨rfl, hpos, ?_⟩
    have hq : q ≠ [] := by
      rintro rfl
      simp [recipe_match_count] at hpos
    have hlen : 1 ≤ q.length := List.length_pos.mpr hq
    rw [Nat.max_eq_right hlen]
  · unfold get_recipes_by_ingredients
    have hnil : scored_recipes C [] = [] := by
      apply List.filterMap_eq_nil_iff.mpr
      intro r _
      simp [recipe_match_count]
    rw [hnil]
    simp
  · unfold get_recipes_by_ingredients
    simp [scored_recipes]

/-- Witness for amended C4 at the ranking example of the spec. -/
theorem match_rank_amended_witness :
    rEggsMilk ∈ [rEggsMilk, rEggsFlour] ∧
    0 < recipe_match_count rEggsMilk ["egg", "milk"] :=
  (match_rank_amended [rEggsMilk, rEggsFlour] ["egg", "milk"] 10).1
    rEggsMilk (by decide)

/-- Counterexample for C4: the match counter counts query duplicates
twice (the claim says distinct), and it applies no ingredient
normalization beyond lowercasing: the query "2 cups milk" normalizes to
"milk" under the Ingredient Normalizer, which occurs in the recipe text,
yet the code counts no match and returns the empty result. -/
theorem match_count_distinct_cex :
    recipe_match_count rEggOnly ["egg", "egg"] = 2 ∧
    (["egg", "egg"].dedup).length = 1 ∧
    normalize_ingredient "2 cups milk" = "milk" ∧
    listIsInfix (normalize_ingredient "2 cups milk").data
      (recipe_ingredients_text rMilkOnly).data = true ∧
    recipe_match_count rMilkOnly ["2 cups milk"] = 0 ∧
    get_recipes_by_ingredients [rMilkOnly] ["2 cups milk"] 10 = [] := by decide
